import Mathlib

/-!
A verification development for the `simulated_annealing` Rust crate.

The crate is embedded shallowly:

* the generic floating-point type parameter `F: Float` of the Rust code is
  embedded as a linear ordered field `F` (instantiated at `ℝ` where the
  transcendental functions `exp`/`ln` matter, and at `ℚ` to evaluate
  concrete runs); the `exp`/`ln` methods of the `Float` trait are embedded
  as the operations of a `FloatOps` class;
* the random number generator handle `rng: &mut R` is embedded as a state
  of an abstract type `ρ` threaded explicitly through every sampling call;
  the external sampling routines of the `rand` crates (`Uniform` and
  `Normal` distributions) are embedded as state-transition functions
  `ρ → F × ρ` carried by the configuration;
* fallible Rust functions returning `anyhow::Result` are embedded as
  `Except Err`, where `Err` records the chain of `with_context` labels
  (as constructors of `Ctx`) around the root error message;
* the two unbounded loops of the source (the `while t > t_min` search loop
  of `SA::findmin` in `sa.rs` and the per-dimension rejection-sampling loop
  of `Method::neighbour` in `neighbour.rs`) are embedded with an explicit
  fuel parameter; running out of fuel yields `none`, which is distinct from
  both successful results and program errors;
* `Point<F, N> = [F; N]` and `Bounds<F, N> = [Range<F>; N]` are embedded as
  lists (of coordinates, and of `(low, high)` pairs).

The engine additionally records the sequence of strategy invocations it
performs as a list of `Event`s; each event is emitted exactly at the
translation of the corresponding call site in `SA::findmin`.
-/

set_option maxHeartbeats 1000000

namespace SimAnn

/-- Labels of the `with_context` annotations appearing in the source.
`evalObjective` stands for the message string
`Couldn.t evaluate the objective function` (sa.rs), `getNeighbour` for
`Couldn.t get a neighbor` (sa.rs), `lowerTemperature` for
`Couldn.t lower the temperature` (sa.rs), `newPoint` for
`Couldn.t generate a new point` (neighbour.rs) and `normalDist` for
`Couldn.t create a normal distribution` (neighbour.rs). -/
inductive Ctx where
  | evalObjective
  | getNeighbour
  | lowerTemperature
  | newPoint
  | normalDist

/-- An `anyhow` error: the chain of context labels wrapped around the root
error, outermost first, together with the root error message. -/
abbrev Err : Type := List Ctx × String

/-- The `anyhow` operation `with_context`: pushes one more context label onto an error. -/
def withCtx (c : Ctx) (e : Err) : Err := (c :: e.1, e.2)

/-- The `exp` and `ln` methods provided by the `num::Float` trait bound of
the generic parameter `F`. -/
class FloatOps (F : Type) where
  exp : F → F
  ln : F → F

/-- At `F = f64` the `Float` operations are the real exponential and
logarithm (up to rounding, which the real-valued model idealizes away). -/
noncomputable instance instFloatOpsReal : FloatOps ℝ :=
  ⟨Real.exp, Real.log⟩

/-- An arbitrary interpretation of the `Float` operations at `ℚ`, used only
to evaluate the generic definitions on concrete rational inputs in
witnesses; no generic theorem depends on the values of `exp` and `ln`. -/
instance instFloatOpsRat : FloatOps ℚ :=
  ⟨fun _ => 0, fun _ => 0⟩

variable {F : Type} [LinearOrderedField F] {ρ : Type}

/-- The cast `utils::cast` applied to the `usize` iteration counter (`schedule.rs`):
`F::from(x)` succeeds for every machine integer at the floating-point
instantiations of `F` (e.g. `f64`), so the embedding is total. -/
def castNat (n : ℕ) : Except Err F := Except.ok (n : F)

/-- The cast `utils::cast` applied to a value that already has type `F`
(`neighbour.rs` casts the sample back to `F`): `F::from` at the same type
always succeeds, so the embedding is total. -/
def castF (x : F) : Except Err F := Except.ok x

/-- The method `Range::<F>::contains` from the Rust standard library:
`start <= x && x < end`. -/
def rangeContains (r : F × F) (x : F) : Bool :=
  decide (r.1 ≤ x) && decide (x < r.2)

/-- The `APF` enum of `apf.rs`. The `Custom` variant stores
`Box<dyn Fn(F, F, &Uniform<F>, &mut R) -> bool>`: it receives the
difference, the temperature, the uniform sampler and the generator state,
and returns a boolean decision together with the new generator state; note
that its return type offers no failure channel. -/
inductive APF (F ρ : Type) where
  | Metropolis
  | Custom (f : F → F → (ρ → F × ρ) → ρ → Bool × ρ)

/-- The method `APF::accept` of `apf.rs`:
`diff <= F::zero() || uni.sample(rng) < F::min(F::exp(-diff / t), F::one())`
for `Metropolis` (the `||` short-circuits, so no sample is drawn when
`diff <= 0`), and delegation for `Custom`. -/
def APF.accept [FloatOps F] (apf : APF F ρ) (diff t : F)
    (uni : ρ → F × ρ) (rng : ρ) : Bool × ρ :=
  match apf with
  | .Metropolis =>
    if diff ≤ 0 then (true, rng)
    else
      let ur := uni rng
      (decide (ur.1 < min (FloatOps.exp (-diff / t)) 1), ur.2)
  | .Custom f => f diff t uni rng

/-- Construction `rand_distr::Normal::new(mean, std_dev)`: per the dependency (and per
the doc comment of `Method::neighbour` in `neighbour.rs`, which documents
the error as `sd is not finite`), construction fails exactly when the
standard deviation is not finite; it does not restrict the sign of the
standard deviation.  Every element of the model field is finite (the model
has no NaN or infinities), so construction always succeeds. -/
def normalNew (_mean _sd : F) : Except Err Unit := Except.ok ()

/-- The per-dimension rejection-sampling loop of `Method::neighbour`
(`neighbour.rs`): draw from the distribution, and redraw while the sample
is outside the bound interval.  The source loop is unbounded; the
embedding spends one unit of fuel per draw and yields `none` when the fuel
runs out. -/
def sampleIn (sample : ρ → F × ρ) (r : F × F) : ℕ → ρ → Option (F × ρ)
  | 0, _ => none
  | n + 1, rng =>
    let sr := sample rng
    if rangeContains r sr.1 then some (sr.1, sr.2) else sampleIn sample r n sr.2

/-- The `Method` enum of `neighbour.rs` (re-exported as `NeighbourMethod`).
The `Custom` variant stores
`Box<dyn Fn(&Point<F, N>, &Bounds<F, N>, &mut R) -> Result<Point<F, N>>>`. -/
inductive NeighbourMethod (F ρ : Type) where
  | Normal (sd : F)
  | Custom (f : List F → List (F × F) → ρ → Except Err (List F × ρ))

/-- The `izip!(&mut new_p, p, bounds).try_for_each(..)` body of the
`Normal` arm of `Method::neighbour`: for each coordinate/bound pair in
order, construct the normal distribution around the current coordinate,
rejection-sample a value inside the bound interval, cast it, and store it;
the generator state is threaded left to right.  `normal` is the sampling
function of the `Normal` distribution of the `rand_distr` crate
(given mean and standard deviation). -/
def neighbourAux (normal : F → F → ρ → F × ρ) (sd : F) (nfuel : ℕ) :
    List (F × (F × F)) → ρ → Option (Except Err (List F × ρ))
  | [], rng => some (Except.ok ([], rng))
  | cr :: rest, rng =>
    match normalNew cr.1 sd with
    | .error e => some (.error (withCtx Ctx.normalDist e))
    | .ok _ =>
      match sampleIn (normal cr.1 sd) cr.2 nfuel rng with
      | none => none
      | some sr =>
        match castF sr.1 with
        | .error e => some (.error e)
        | .ok c =>
          match neighbourAux normal sd nfuel rest sr.2 with
          | none => none
          | some (.error e) => some (.error e)
          | some (.ok qr) => some (.ok (c :: qr.1, qr.2))

/-- The method `Method::neighbour` of `neighbour.rs`: the `Normal` arm builds the new
point dimension by dimension (wrapping any error in the
`Couldn.t generate a new point` context), the `Custom` arm delegates. -/
def NeighbourMethod.neighbour (m : NeighbourMethod F ρ)
    (normal : F → F → ρ → F × ρ) (p : List F) (bounds : List (F × F))
    (rng : ρ) (nfuel : ℕ) : Option (Except Err (List F × ρ)) :=
  match m with
  | .Normal sd =>
    match neighbourAux normal sd nfuel (p.zip bounds) rng with
    | none => none
    | some (.error e) => some (.error (withCtx Ctx.newPoint e))
    | some (.ok qr) => some (.ok qr)
  | .Custom f => some (f p bounds rng)

/-- The `Schedule` enum of `schedule.rs`.  The `Custom` variant stores
`Box<dyn Fn(usize, F, F) -> Result<F>>`. -/
inductive Schedule (F : Type) where
  | Logarithmic
  | Exponential (gamma : F)
  | Fast
  | Custom (f : ℕ → F → F → Except Err F)

/-- The method `Schedule::cool` of `schedule.rs`:
`Logarithmic` returns `t_0 * F::ln(F::from(2.).unwrap()) / F::ln(cast(k + 1)?)`,
`Exponential { gamma }` returns `gamma * t`,
`Fast` returns `t_0 / cast(k)?`, and `Custom` delegates. -/
def Schedule.cool [FloatOps F] (sch : Schedule F) (k : ℕ) (t t_0 : F) :
    Except Err F :=
  match sch with
  | .Logarithmic =>
    match castNat (k + 1) with
    | .error e => .error e
    | .ok c => .ok (t_0 * FloatOps.ln (2 : F) / FloatOps.ln c)
  | .Exponential gamma => .ok (gamma * t)
  | .Fast =>
    match castNat k with
    | .error e => .error e
    | .ok c => .ok (t_0 / c)
  | .Custom f => f k t t_0

/-- The `Status` enum of `status.rs`.  `print` only produces console
output; the embedding represents the observable output of one call as the
optional tuple of printed data, and a `Custom` sink as a function to the
same observable. -/
inductive Status (F : Type) where
  | None
  | Periodic (nk : ℕ)
  | Custom (f : ℕ → F → F → List F → F → List F →
      Option (ℕ × F × F × List F × F × List F))

/-- The method `Status::print` of `status.rs`: `None` prints nothing, `Periodic nk`
prints the tuple `(k, t, f, p, best_f, best_p)` when `k % nk == 0`, and
`Custom` delegates. -/
def Status.print (st : Status F) (k : ℕ) (t f : F) (p : List F)
    (best_f : F) (best_p : List F) :
    Option (ℕ × F × F × List F × F × List F) :=
  match st with
  | .None => none
  | .Periodic nk => if k % nk = 0 then some (k, t, f, p, best_f, best_p) else none
  | .Custom fn => fn k t f p best_f best_p

/-- One strategy invocation performed by the search loop of `SA::findmin`,
recorded with the arguments passed at the call site (and, for the
acceptance-probability function, also its boolean decision). -/
inductive Event (F : Type) where
  | neighbourCall (p : List F)
  | objectiveCall (p : List F)
  | apfCall (diff t : F) (accepted : Bool)
  | scheduleCall (k : ℕ) (t t_0 : F)
  | statusCall (k : ℕ) (t f : F) (p : List F) (best_f : F) (best_p : List F)

/-- The mutable local state of one `SA::findmin` invocation (`sa.rs`):
the working solution `(p, f)`, the best solution `(best_p, best_f)`, the
temperature `t`, the iteration counter `k`, and the generator state. -/
structure State (F ρ : Type) where
  p : List F
  f : F
  best_p : List F
  best_f : F
  t : F
  k : ℕ
  rng : ρ

/-- The `SA` configuration struct of `sa.rs`, together with the embedding
of the external sampling machinery: `uni` is the sampler of the
`Uniform::new(F::zero(), F::one())` distribution built in `findmin`,
`normal` the sampler of `rand_distr::Normal` given mean and standard
deviation, and `nfuel` the fuel given to each rejection-sampling loop. -/
structure Config (F ρ : Type) where
  f : List F → Except Err F
  p_0 : List F
  t_0 : F
  t_min : F
  bounds : List (F × F)
  apf : APF F ρ
  neighbour : NeighbourMethod F ρ
  schedule : Schedule F
  status : Status F
  rng : ρ
  uni : ρ → F × ρ
  normal : F → F → ρ → F × ρ
  nfuel : ℕ

/-- The body of the `while t > self.t_min` loop of `SA::findmin`
(`sa.rs`, lines 76-106), as a transition on `State`: get a neighbour,
evaluate the objective at it, ask the acceptance-probability function and
update the working solution on acceptance, update the best solution when
the candidate is strictly better, cool, print the status, and increment
the counter.  Any failure aborts with the corresponding context; the
second component records the strategy invocations in source order. -/
def step [FloatOps F] (cfg : Config F ρ) (s : State F ρ) :
    Option (Except Err (State F ρ)) × List (Event F) :=
  match cfg.neighbour.neighbour cfg.normal s.p cfg.bounds s.rng cfg.nfuel with
  | none => (none, [Event.neighbourCall s.p])
  | some (.error e) =>
    (some (.error (withCtx Ctx.getNeighbour e)), [Event.neighbourCall s.p])
  | some (.ok nr) =>
    match cfg.f nr.1 with
    | .error e =>
      (some (.error (withCtx Ctx.evalObjective e)),
        [Event.neighbourCall s.p, Event.objectiveCall nr.1])
    | .ok nf =>
      let diff := nf - s.f
      let ar := APF.accept cfg.apf diff s.t cfg.uni nr.2
      let p2 := if ar.1 then nr.1 else s.p
      let f2 := if ar.1 then nf else s.f
      let bp2 := if nf < s.best_f then nr.1 else s.best_p
      let bf2 := if nf < s.best_f then nf else s.best_f
      match cfg.schedule.cool s.k s.t cfg.t_0 with
      | .error e =>
        (some (.error (withCtx Ctx.lowerTemperature e)),
          [Event.neighbourCall s.p, Event.objectiveCall nr.1,
            Event.apfCall diff s.t ar.1, Event.scheduleCall s.k s.t cfg.t_0])
      | .ok t2 =>
        let _ := cfg.status.print s.k t2 f2 p2 bf2 bp2
        (some (.ok ⟨p2, f2, bp2, bf2, t2, s.k + 1, ar.2⟩),
          [Event.neighbourCall s.p, Event.objectiveCall nr.1,
            Event.apfCall diff s.t ar.1, Event.scheduleCall s.k s.t cfg.t_0,
            Event.statusCall s.k t2 f2 p2 bf2 bp2])

/-- The `while t > self.t_min` loop of `SA::findmin`: while the
temperature exceeds the minimum, perform one `step`; on convergence return
`Ok((best_f, best_p))`.  One unit of fuel is spent per iteration;
exhausted fuel yields `none` (the source loop may run forever). -/
def loop [FloatOps F] (cfg : Config F ρ) :
    State F ρ → ℕ → Option (Except Err (F × List F)) × List (Event F)
  | s, 0 =>
    if s.t ≤ cfg.t_min then
      (some (Except.ok (s.best_f, s.best_p)), [])
    else (none, [])
  | s, fuel + 1 =>
    if s.t ≤ cfg.t_min then
      (some (Except.ok (s.best_f, s.best_p)), [])
    else
      match step cfg s with
      | (none, evs) => (none, evs)
      | (some (Except.error e), evs) => (some (Except.error e), evs)
      | (some (Except.ok s2), evs) =>
        let r := loop cfg s2 fuel
        (r.1, evs ++ r.2)

/-- The method `SA::findmin` of `sa.rs` together with the recorded strategy
invocations of its loop: evaluate the objective at the initial point
(failure aborts with the `evalObjective` context before any iteration),
initialize the working and best solutions to the initial point and value,
set `t := t_0`, `k := 1`, and run the loop. -/
def findminRun [FloatOps F] (cfg : Config F ρ) (fuel : ℕ) :
    Option (Except Err (F × List F)) × List (Event F) :=
  match cfg.f cfg.p_0 with
  | .error e => (some (.error (withCtx Ctx.evalObjective e)), [])
  | .ok f0 => loop cfg ⟨cfg.p_0, f0, cfg.p_0, f0, cfg.t_0, 1, cfg.rng⟩ fuel

/-- The result of `SA::findmin`: `some (Except.ok (best_f, best_p))` on
convergence, `some (Except.error e)` on failure, `none` when the fuel does
not cover the run. -/
def findmin [FloatOps F] (cfg : Config F ρ) (fuel : ℕ) :
    Option (Except Err (F × List F)) :=
  (findminRun cfg fuel).1

/-- A concrete one-dimensional configuration over `ℚ` (generator state `ℕ`)
whose custom strategies always succeed, used to evaluate the engine on a
concrete run: the objective returns the head coordinate, the neighbour
method moves the head coordinate up by one, and the custom schedule cools
to temperature `0` at once. -/
def cfgOkQ : Config ℚ ℕ :=
  ⟨fun q => .ok (q.headD 0), [0], 2, 1, [],
    .Custom (fun _ _ _ r => (true, r)),
    .Custom (fun p _ r => .ok ([p.headD 0 + 1], r)),
    .Custom (fun _ _ _ => .ok 0),
    .None, 0, fun n => (1 / 2, n + 1), fun m _ n => (m, n + 1), 3⟩

/-- Configuration `cfgOkQ` with the objective replaced by one that always fails with the
root error message `boom` (no context yet). -/
def cfgBadObjQ : Config ℚ ℕ :=
  ⟨fun _ => .error ([], "boom"), [0], 2, 1, [],
    .Custom (fun _ _ _ r => (true, r)),
    .Custom (fun p _ r => .ok ([p.headD 0 + 1], r)),
    .Custom (fun _ _ _ => .ok 0),
    .None, 0, fun n => (1 / 2, n + 1), fun m _ n => (m, n + 1), 3⟩

/-- Configuration `cfgOkQ` with the neighbour method replaced by a custom one that always
fails with the root error message `boom`. -/
def cfgBadNbrQ : Config ℚ ℕ :=
  ⟨fun q => .ok (q.headD 0), [0], 2, 1, [],
    .Custom (fun _ _ _ r => (true, r)),
    .Custom (fun _ _ _ => .error ([], "boom")),
    .Custom (fun _ _ _ => .ok 0),
    .None, 0, fun n => (1 / 2, n + 1), fun m _ n => (m, n + 1), 3⟩

/-- Configuration `cfgOkQ` with an arbitrary caller-supplied custom acceptance
probability function `g`; everything else always succeeds, and the custom
schedule converges after one iteration. -/
def cfgApfQ (g : ℚ → ℚ → (ℕ → ℚ × ℕ) → ℕ → Bool × ℕ) : Config ℚ ℕ :=
  ⟨fun q => .ok (q.headD 0), [0], 2, 1, [],
    .Custom g,
    .Custom (fun p _ r => .ok ([p.headD 0 + 1], r)),
    .Custom (fun _ _ _ => .ok 0),
    .None, 0, fun n => (1 / 2, n + 1), fun m _ n => (m, n + 1), 3⟩

/-- A concrete configuration over `ℚ` whose initial temperature does not
exceed the minimum temperature (`t_0 = t_min = 1`), with built-in
strategies: the search loop converges immediately. -/
def cfgConvQ : Config ℚ ℕ :=
  ⟨fun q => .ok (q.headD 0), [3], 1, 1, [(0, 10)],
    .Metropolis, .Normal 1, .Fast, .None, 0,
    fun n => (1 / 2, n + 1), fun m _ n => (m, n + 1), 3⟩

/-- The proposition that the run of `findmin` on `cfgApfQ g` ends in the
same success for every behaviour `g` of the custom acceptance probability
function: the engine offers no failure path through the acceptance
probability function. -/
def apfCannotAbort : Prop :=
  ∀ g : ℚ → ℚ → (ℕ → ℚ × ℕ) → ℕ → Bool × ℕ,
    findmin (cfgApfQ g) 2 = some (Except.ok (0, [0]))

/-! ## Helper lemmas -/

theorem floatOps_ln_real : (FloatOps.ln : ℝ → ℝ) = Real.log := rfl

theorem floatOps_exp_rat (x : ℚ) : FloatOps.exp x = 0 := rfl

theorem sampleIn_contains {sample : ρ → F × ρ} {r : F × F} :
    ∀ {n : ℕ} {rng : ρ} {sr : F × ρ}, sampleIn sample r n rng = some sr →
      rangeContains r sr.1 = true := by
  intro n
  induction n with
  | zero => intro rng sr h; exact absurd h (by simp [sampleIn])
  | succ n ih =>
    intro rng sr h
    rw [sampleIn] at h
    by_cases hc : rangeContains r (sample rng).1 = true
    · rw [if_pos hc] at h
      obtain rfl : ((sample rng).1, (sample rng).2) = sr := by
        simpa using h
      exact hc
    · rw [if_neg hc] at h
      exact ih h

theorem neighbourAux_spec {normal : F → F → ρ → F × ρ} {sd : F} {nfuel : ℕ} :
    ∀ {l : List (F × (F × F))} {rng : ρ} {q : List F} {rng2 : ρ},
      neighbourAux normal sd nfuel l rng = some (Except.ok (q, rng2)) →
      q.length = l.length ∧
        ∀ i (h1 : i < q.length) (h2 : i < l.length),
          rangeContains (l.get ⟨i, h2⟩).2 (q.get ⟨i, h1⟩) = true := by
  intro l
  induction l with
  | nil =>
    intro rng q rng2 h
    obtain ⟨rfl, rfl⟩ : [] = q ∧ rng = rng2 := by
      rw [neighbourAux] at h; simpa using h
    exact ⟨rfl, fun i h1 h2 => absurd h1 (by simp)⟩
  | cons cr rest ih =>
    intro rng q rng2 h
    rw [neighbourAux] at h
    simp only [normalNew] at h
    rcases hs : sampleIn (normal cr.1 sd) cr.2 nfuel rng with _ | sr
    · rw [hs] at h; exact absurd h (by simp)
    · rw [hs] at h
      simp only [castF] at h
      rcases hr : neighbourAux normal sd nfuel rest sr.2 with _ | er
      · rw [hr] at h; exact absurd h (by simp)
      · rw [hr] at h
        rcases er with e | qr
        · exact absurd h (by simp)
        · obtain ⟨rfl, rfl⟩ : sr.1 :: qr.1 = q ∧ qr.2 = rng2 := by
            simpa using h
          obtain ⟨hlen, htail⟩ := ih hr
          refine ⟨by simpa using hlen, ?_⟩
          intro i h1 h2
          match i with
          | 0 => simpa using sampleIn_contains hs
          | j + 1 =>
            exact htail j (by simpa using h1) (by simpa using h2)

theorem neighbourAux_no_error (normal : F → F → ρ → F × ρ) (sd : F)
    (nfuel : ℕ) :
    ∀ (l : List (F × (F × F))) (rng : ρ),
      neighbourAux normal sd nfuel l rng = none ∨
        ∃ q rng2, neighbourAux normal sd nfuel l rng = some (Except.ok (q, rng2)) := by
  intro l
  induction l with
  | nil => intro rng; exact Or.inr ⟨[], rng, rfl⟩
  | cons cr rest ih =>
    intro rng
    rcases hs : sampleIn (normal cr.1 sd) cr.2 nfuel rng with _ | sr
    · exact Or.inl (by rw [neighbourAux, hs]; rfl)
    · rcases ih sr.2 with hr | ⟨q, rng2, hr⟩
      · exact Or.inl (by rw [neighbourAux, hs]; simp [normalNew, castF, hr])
      · refine Or.inr ⟨sr.1 :: q, rng2, ?_⟩
        rw [neighbourAux, hs]
        simp [normalNew, castF, hr]

/-! ## Claims -/

/-- C2: for the Metropolis variant, `accept` returns `true` unconditionally
when `diff <= 0`, leaving the generator state untouched (no random draw);
when `diff > 0` it draws exactly one sample `u` from the uniform source and
returns `true` exactly when `u < exp(-diff / t)` (the sample being below
`1`, the `min` with `1` taken by the source cannot change the comparison),
handing back the once-advanced generator state. -/
theorem c2_metropolis_accept [FloatOps F] (diff t : F) (uni : ρ → F × ρ)
    (rng : ρ) :
    (diff ≤ 0 → APF.accept APF.Metropolis diff t uni rng = (true, rng)) ∧
    (0 < diff → (uni rng).1 < 1 →
      APF.accept APF.Metropolis diff t uni rng =
        (decide ((uni rng).1 < FloatOps.exp (-diff / t)), (uni rng).2)) := by
  constructor
  · intro h
    rw [APF.accept, if_pos h]
  · intro h hu
    rw [APF.accept, if_neg (not_le.mpr h)]
    refine Prod.ext ?_ rfl
    show decide ((uni rng).1 < min (FloatOps.exp (-diff / t)) 1) = _
    exact decide_eq_decide.mpr
      ⟨fun h2 => (lt_min_iff.mp h2).1, fun h2 => lt_min_iff.mpr ⟨h2, hu⟩⟩

theorem c2_witness :
    ((-1 : ℚ) ≤ 0 ∧
      APF.accept (ρ := ℕ) APF.Metropolis (-1 : ℚ) 2 (fun n => (1 / 2, n + 1)) 0 =
        (true, 0)) ∧
    (0 < (1 : ℚ) ∧
      APF.accept (ρ := ℕ) APF.Metropolis (1 : ℚ) 2 (fun n => (1 / 2, n + 1)) 0 =
        (decide ((1 : ℚ) / 2 < FloatOps.exp (-(1 : ℚ) / 2)), 1)) :=
  ⟨⟨by norm_num,
    (c2_metropolis_accept (ρ := ℕ) (-1 : ℚ) 2 (fun n => (1 / 2, n + 1)) 0).1
      (by norm_num)⟩,
    ⟨by norm_num,
    (c2_metropolis_accept (ρ := ℕ) (1 : ℚ) 2 (fun n => (1 / 2, n + 1)) 0).2
      (by norm_num) (by norm_num)⟩⟩

/-- C5: `Schedule::cool` computes the documented formulas, over `ℝ`:
`Logarithmic` returns `t_0 * ln 2 / ln (k + 1)`, `Exponential { gamma }`
returns `gamma * t`, `Fast` returns `t_0 / k`; in particular
`Fast.cool 1 100 100 = 100`, `Fast.cool 2 t 100 = 50`,
`Exponential 0.9 |>.cool k 100 100 = 90` and
`Logarithmic.cool 1 t 100 = 100 * ln 2 / ln 2 = 100`. -/
theorem c5_schedule_formulas (k : ℕ) (t t_0 gamma : ℝ) :
    Schedule.cool Schedule.Logarithmic k t t_0 =
      Except.ok (t_0 * Real.log 2 / Real.log ((k : ℝ) + 1)) ∧
    Schedule.cool (Schedule.Exponential gamma) k t t_0 = Except.ok (gamma * t) ∧
    Schedule.cool Schedule.Fast k t t_0 = Except.ok (t_0 / (k : ℝ)) ∧
    Schedule.cool Schedule.Fast 1 (100 : ℝ) 100 = Except.ok 100 ∧
    Schedule.cool Schedule.Fast 2 t 100 = Except.ok 50 ∧
    Schedule.cool (Schedule.Exponential (0.9 : ℝ)) k 100 100 = Except.ok 90 ∧
    Schedule.cool Schedule.Logarithmic 1 t (100 : ℝ) = Except.ok 100 := by
  refine ⟨?_, rfl, rfl, ?_, ?_, ?_, ?_⟩
  · rw [Schedule.cool]
    show Except.ok (t_0 * Real.log 2 / Real.log ((k + 1 : ℕ) : ℝ)) = _
    push_cast
    rfl
  · rw [Schedule.cool]
    show Except.ok ((100 : ℝ) / ((1 : ℕ) : ℝ)) = _
    norm_num
  · rw [Schedule.cool]
    show Except.ok ((100 : ℝ) / ((2 : ℕ) : ℝ)) = _
    norm_num
  · rw [Schedule.cool]
    norm_num
  · rw [Schedule.cool]
    show Except.ok ((100 : ℝ) * Real.log 2 / Real.log ((1 + 1 : ℕ) : ℝ)) = _
    rw [mul_div_assoc]
    norm_num [div_self (ne_of_gt (Real.log_pos one_lt_two))]

/-- C1: in every iteration step of `findmin` whose strategy calls succeed,
the best solution is updated from the evaluated candidate exactly when the
candidate value is strictly below the current best value — by a rule that
does not mention the acceptance decision at all — and consequently the
best value never increases while the iteration counter increases by one. -/
theorem c1_best_update [FloatOps F] (cfg : Config F ρ) (s : State F ρ)
    (np : List F) (rng1 : ρ) (nf t2 : F)
    (hn : cfg.neighbour.neighbour cfg.normal s.p cfg.bounds s.rng cfg.nfuel =
      some (Except.ok (np, rng1)))
    (hf : cfg.f np = Except.ok nf)
    (hc : cfg.schedule.cool s.k s.t cfg.t_0 = Except.ok t2) :
    ∃ s2 evs, step cfg s = (some (Except.ok s2), evs) ∧
      s2.best_f = (if nf < s.best_f then nf else s.best_f) ∧
      s2.best_p = (if nf < s.best_f then np else s.best_p) ∧
      s2.best_f ≤ s.best_f ∧
      s2.k = s.k + 1 := by
  simp only [step, hn, hf, hc]
  refine ⟨_, _, rfl, rfl, rfl, ?_, rfl⟩
  show (if nf < s.best_f then nf else s.best_f) ≤ s.best_f
  split_ifs with h
  · exact le_of_lt h
  · exact le_refl _

theorem c1_witness :
    ∃ s2 evs,
      step cfgOkQ ⟨[0], 0, [0], 0, 2, 1, 0⟩ = (some (Except.ok s2), evs) ∧
      s2.best_f = (if (1 : ℚ) < 0 then 1 else 0) ∧
      s2.best_p = (if (1 : ℚ) < 0 then [1] else [0]) ∧
      s2.best_f ≤ 0 ∧
      s2.k = 1 + 1 :=
  c1_best_update cfgOkQ ⟨[0], 0, [0], 0, 2, 1, 0⟩ [1] 0 1 0
    (by norm_num [cfgOkQ, NeighbourMethod.neighbour])
    (by norm_num [cfgOkQ])
    (by norm_num [cfgOkQ, Schedule.cool])

/-- C3: in every loop iteration (a `loop` unfolding whose strategy calls
succeed), the strategies are invoked exactly once each, in the order
neighbour method, objective evaluation, acceptance probability function,
cooling schedule, status sink — witnessed by the recorded event list of the
iteration — and the status sink receives the post-update values: the
already-cooled temperature `t2`, the current solution as updated by the
acceptance decision, and the best solution as updated by the best-value
comparison; the iteration counter passed to the schedule and the status
sink is the pre-increment `s.k`, and the counter is incremented to
`s.k + 1` only in the successor state. -/
theorem c3_call_order [FloatOps F] (cfg : Config F ρ) (s : State F ρ)
    (fuel : ℕ) (np : List F) (rng1 : ρ) (nf t2 : F)
    (ht : cfg.t_min < s.t)
    (hn : cfg.neighbour.neighbour cfg.normal s.p cfg.bounds s.rng cfg.nfuel =
      some (Except.ok (np, rng1)))
    (hf : cfg.f np = Except.ok nf)
    (hc : cfg.schedule.cool s.k s.t cfg.t_0 = Except.ok t2) :
    ∃ acc rng2,
      APF.accept cfg.apf (nf - s.f) s.t cfg.uni rng1 = (acc, rng2) ∧
      loop cfg s (fuel + 1) =
        ((loop cfg ⟨if acc then np else s.p, if acc then nf else s.f,
            if nf < s.best_f then np else s.best_p,
            if nf < s.best_f then nf else s.best_f, t2, s.k + 1, rng2⟩ fuel).1,
          Event.neighbourCall s.p ::
            Event.objectiveCall np ::
              Event.apfCall (nf - s.f) s.t acc ::
                Event.scheduleCall s.k s.t cfg.t_0 ::
                  Event.statusCall s.k t2 (if acc then nf else s.f)
                      (if acc then np else s.p)
                      (if nf < s.best_f then nf else s.best_f)
                      (if nf < s.best_f then np else s.best_p) ::
                    (loop cfg ⟨if acc then np else s.p, if acc then nf else s.f,
                        if nf < s.best_f then np else s.best_p,
                        if nf < s.best_f then nf else s.best_f,
                        t2, s.k + 1, rng2⟩ fuel).2) := by
  refine ⟨(APF.accept cfg.apf (nf - s.f) s.t cfg.uni rng1).1,
    (APF.accept cfg.apf (nf - s.f) s.t cfg.uni rng1).2, rfl, ?_⟩
  conv_lhs => rw [loop]
  rw [if_neg (not_le.mpr ht)]
  simp only [step, hn, hf, hc, List.cons_append, List.nil_append]

theorem c3_witness :
    ∃ acc rng2,
      APF.accept cfgOkQ.apf ((1 : ℚ) - 0) 2 cfgOkQ.uni 0 = (acc, rng2) ∧
      loop cfgOkQ (⟨[0], 0, [0], 0, 2, 1, 0⟩ : State ℚ ℕ) (1 + 1) =
        ((loop cfgOkQ ⟨if acc then [1] else [0], if acc then 1 else 0,
            if (1 : ℚ) < 0 then [1] else [0],
            if (1 : ℚ) < 0 then 1 else 0, 0, 1 + 1, rng2⟩ 1).1,
          Event.neighbourCall [0] ::
            Event.objectiveCall [1] ::
              Event.apfCall ((1 : ℚ) - 0) 2 acc ::
                Event.scheduleCall 1 2 2 ::
                  Event.statusCall 1 0 (if acc then 1 else 0)
                      (if acc then [1] else [0])
                      (if (1 : ℚ) < 0 then 1 else 0)
                      (if (1 : ℚ) < 0 then [1] else [0]) ::
                    (loop cfgOkQ ⟨if acc then [1] else [0], if acc then 1 else 0,
                        if (1 : ℚ) < 0 then [1] else [0],
                        if (1 : ℚ) < 0 then 1 else 0,
                        0, 1 + 1, rng2⟩ 1).2) :=
  c3_call_order cfgOkQ ⟨[0], 0, [0], 0, 2, 1, 0⟩ 1 [1] 0 1 0 (by norm_num [cfgOkQ])
    (by norm_num [cfgOkQ, NeighbourMethod.neighbour])
    (by norm_num [cfgOkQ])
    (by norm_num [cfgOkQ, Schedule.cool])

/-- C4: `findmin` is fail-fast.  If the objective evaluation at the
initial point fails, the run returns the error wrapped in the
objective-evaluation context before any iteration (empty event trace).
Inside an iteration, a failure of the neighbour method, of the objective
function, or of the cooling schedule makes the loop return immediately
with the error wrapped in the context naming the failed stage — no retry,
no further strategy call, and no best-so-far success value. -/
theorem c4_fail_fast [FloatOps F] (cfg : Config F ρ) (s : State F ρ)
    (fuel : ℕ) :
    (∀ e, cfg.f cfg.p_0 = Except.error e →
      findminRun cfg fuel =
        (some (Except.error (withCtx Ctx.evalObjective e)), [])) ∧
    (∀ e, cfg.t_min < s.t →
      cfg.neighbour.neighbour cfg.normal s.p cfg.bounds s.rng cfg.nfuel =
        some (Except.error e) →
      loop cfg s (fuel + 1) =
        (some (Except.error (withCtx Ctx.getNeighbour e)),
          [Event.neighbourCall s.p])) ∧
    (∀ e np rng1, cfg.t_min < s.t →
      cfg.neighbour.neighbour cfg.normal s.p cfg.bounds s.rng cfg.nfuel =
        some (Except.ok (np, rng1)) →
      cfg.f np = Except.error e →
      loop cfg s (fuel + 1) =
        (some (Except.error (withCtx Ctx.evalObjective e)),
          [Event.neighbourCall s.p, Event.objectiveCall np])) ∧
    (∀ e np rng1 nf, cfg.t_min < s.t →
      cfg.neighbour.neighbour cfg.normal s.p cfg.bounds s.rng cfg.nfuel =
        some (Except.ok (np, rng1)) →
      cfg.f np = Except.ok nf →
      cfg.schedule.cool s.k s.t cfg.t_0 = Except.error e →
      loop cfg s (fuel + 1) =
        (some (Except.error (withCtx Ctx.lowerTemperature e)),
          [Event.neighbourCall s.p, Event.objectiveCall np,
            Event.apfCall (nf - s.f) s.t
              (APF.accept cfg.apf (nf - s.f) s.t cfg.uni rng1).1,
            Event.scheduleCall s.k s.t cfg.t_0])) := by
  refine ⟨?_, ?_, ?_, ?_⟩
  · intro e he
    simp only [findminRun, he]
  · intro e ht hn
    conv_lhs => rw [loop]
    rw [if_neg (not_le.mpr ht)]
    simp only [step, hn]
  · intro e np rng1 ht hn hf
    conv_lhs => rw [loop]
    rw [if_neg (not_le.mpr ht)]
    simp only [step, hn, hf]
  · intro e np rng1 nf ht hn hf hc
    conv_lhs => rw [loop]
    rw [if_neg (not_le.mpr ht)]
    simp only [step, hn, hf, hc]

theorem c4_witness :
    findminRun cfgBadObjQ 4 =
      (some (Except.error (withCtx Ctx.evalObjective ([], "boom"))), []) :=
  (c4_fail_fast cfgBadObjQ ⟨[0], 0, [0], 0, 2, 1, 0⟩ 4).1 ([], "boom") rfl

/-- C6: every point returned successfully by the `Normal` neighbour method
has (for positionally aligned point and bounds lists) exactly one
coordinate per bound interval, and each coordinate lies inside its
half-open interval: `low <= c` and `c < high`, as checked by the
rejection-sampling loop through `Range::contains`. -/
theorem c6_bounds_containment (sd : F) (normal : F → F → ρ → F × ρ)
    (p : List F) (bounds : List (F × F)) (rng rng2 : ρ) (q : List F)
    (nfuel : ℕ)
    (hlen : p.length = bounds.length)
    (h : NeighbourMethod.neighbour (NeighbourMethod.Normal sd) normal p
      bounds rng nfuel = some (Except.ok (q, rng2))) :
    q.length = bounds.length ∧
      ∀ i (hi : i < bounds.length) (hq : i < q.length),
        (bounds.get ⟨i, hi⟩).1 ≤ q.get ⟨i, hq⟩ ∧
          q.get ⟨i, hq⟩ < (bounds.get ⟨i, hi⟩).2 := by
  rw [NeighbourMethod.neighbour] at h
  rcases haux : neighbourAux normal sd nfuel (p.zip bounds) rng with _ | er
  · rw [haux] at h; exact absurd h (by simp)
  · rw [haux] at h
    rcases er with e | qr
    · exact absurd h (by simp)
    · rcases qr with ⟨q2, r2⟩
      obtain ⟨rfl, rfl⟩ : q2 = q ∧ r2 = rng2 := by simpa using h
      obtain ⟨hlen2, hcont⟩ := neighbourAux_spec haux
      have hzlen : (p.zip bounds).length = bounds.length := by
        rw [List.length_zip, hlen, min_self]
      refine ⟨by rw [hlen2, hzlen], ?_⟩
      intro i hi hq
      have h2 : i < (p.zip bounds).length := by rw [hzlen]; exact hi
      have hp : i < p.length := by rw [hlen]; exact hi
      have hcc := hcont i hq h2
      rw [rangeContains] at hcc
      simp only [List.get_eq_getElem, List.getElem_zip, Bool.and_eq_true,
        decide_eq_true_eq] at hcc ⊢
      exact hcc

theorem step_err_stage [FloatOps F] (cfg : Config F ρ) (s : State F ρ)
    (e : Err) (evs : List (Event F))
    (h : step cfg s = (some (Except.error e), evs)) :
    e.1.head? = some Ctx.getNeighbour ∨ e.1.head? = some Ctx.evalObjective ∨
      e.1.head? = some Ctx.lowerTemperature := by
  rcases hn : cfg.neighbour.neighbour cfg.normal s.p cfg.bounds s.rng cfg.nfuel
    with _ | er
  · simp only [step, hn] at h
    simp at h
  · rcases er with e1 | nr
    · simp only [step, hn] at h
      simp only [Prod.mk.injEq, Option.some.injEq, Except.error.injEq] at h
      obtain ⟨rfl, -⟩ := h
      exact Or.inl rfl
    · rcases hf : cfg.f nr.1 with e1 | nf
      · simp only [step, hn, hf] at h
        simp only [Prod.mk.injEq, Option.some.injEq, Except.error.injEq] at h
        obtain ⟨rfl, -⟩ := h
        exact Or.inr (Or.inl rfl)
      · rcases hc : cfg.schedule.cool s.k s.t cfg.t_0 with e1 | t2
        · simp only [step, hn, hf, hc] at h
          simp only [Prod.mk.injEq, Option.some.injEq, Except.error.injEq] at h
          obtain ⟨rfl, -⟩ := h
          exact Or.inr (Or.inr rfl)
        · simp only [step, hn, hf, hc] at h
          simp at h

theorem loop_err_stage [FloatOps F] (cfg : Config F ρ) :
    ∀ (fuel : ℕ) (s : State F ρ) (e : Err) (evs : List (Event F)),
      loop cfg s fuel = (some (Except.error e), evs) →
      e.1.head? = some Ctx.getNeighbour ∨ e.1.head? = some Ctx.evalObjective ∨
        e.1.head? = some Ctx.lowerTemperature := by
  intro fuel
  induction fuel with
  | zero =>
    intro s e evs h
    rw [loop] at h
    split at h
    · simp at h
    · simp at h
  | succ n ih =>
    intro s e evs h
    rw [loop] at h
    split at h
    · simp at h
    · split at h
      · simp at h
      · rename_i evs1 heq
        simp only [Prod.mk.injEq, Option.some.injEq, Except.error.injEq] at h
        obtain ⟨rfl, -⟩ := h
        exact step_err_stage cfg s _ _ heq
      · rename_i s2 evs1 heq
        simp only [Prod.mk.injEq] at h
        obtain ⟨h1, -⟩ := h
        exact ih s2 e (loop cfg s2 n).2 (by rw [← h1])

theorem c6_witness :
    ([(0 : ℚ)].length = [((-1 : ℚ), (1 : ℚ))].length ∧
      ∀ i (hi : i < [((-1 : ℚ), (1 : ℚ))].length)
        (hq : i < [(0 : ℚ)].length),
        ([((-1 : ℚ), (1 : ℚ))].get ⟨i, hi⟩).1 ≤ [(0 : ℚ)].get ⟨i, hq⟩ ∧
          [(0 : ℚ)].get ⟨i, hq⟩ < ([((-1 : ℚ), (1 : ℚ))].get ⟨i, hi⟩).2) :=
  c6_bounds_containment (ρ := ℕ) 1
    (fun _ _ n => (if n = 0 then 5 else 0, n + 1)) [0] [(-1, 1)] 0 2 [0] 2
    rfl (by norm_num [NeighbourMethod.neighbour, neighbourAux, normalNew,
      sampleIn, castF, rangeContains])

/-- C7, counterexample: the claim asserts that a custom
acceptance-probability function may itself fail and that `findmin` then
aborts.  In the source, the custom APF type
(`Box<dyn Fn(F, F, &Uniform<F>, &mut R) -> bool>`, apf.rs) returns a plain
boolean with no failure channel, and `SA::findmin` uses the returned
boolean directly (no `?` operator): on the concrete configuration
`cfgApfQ g` — where every other strategy succeeds — the run ends in the
same success for every behaviour `g` of the custom APF, so no custom APF
can make the engine abort. -/
theorem c7_counterexample : apfCannotAbort := by
  intro g
  show (findminRun (cfgApfQ g) 2).1 = some (Except.ok (0, [0]))
  rcases hg : g (1 - 0) 2 (cfgApfQ g).uni 0 with ⟨acc, rng2⟩
  norm_num [findminRun, cfgApfQ, loop, step, NeighbourMethod.neighbour,
    Schedule.cool, APF.accept, hg]

/-- C7, amended: a custom acceptance-probability function returns its
decision as a plain boolean and has no failure channel; `findmin` never
aborts because of the acceptance-probability function — every error it
returns is wrapped in the context of one of the three fallible stages:
the neighbour method, the objective evaluation, or the cooling schedule. -/
theorem c7_amended [FloatOps F] (cfg : Config F ρ) (fuel : ℕ) (e : Err)
    (h : findmin cfg fuel = some (Except.error e)) :
    e.1.head? = some Ctx.getNeighbour ∨ e.1.head? = some Ctx.evalObjective ∨
      e.1.head? = some Ctx.lowerTemperature := by
  rw [findmin] at h
  rcases hobj : cfg.f cfg.p_0 with e0 | f0
  · simp only [findminRun, hobj] at h
    simp only [Option.some.injEq, Except.error.injEq] at h
    subst h
    exact Or.inr (Or.inl rfl)
  · simp only [findminRun, hobj] at h
    exact loop_err_stage cfg fuel _ e _ (by rw [← h])

theorem c7_amended_witness :
    ((Ctx.getNeighbour :: ([] : List Ctx), "boom") : Err).1.head? =
        some Ctx.getNeighbour ∨
      ((Ctx.getNeighbour :: ([] : List Ctx), "boom") : Err).1.head? =
        some Ctx.evalObjective ∨
      ((Ctx.getNeighbour :: ([] : List Ctx), "boom") : Err).1.head? =
        some Ctx.lowerTemperature :=
  c7_amended cfgBadNbrQ 1 (Ctx.getNeighbour :: [], "boom")
    (by norm_num [findmin, findminRun, cfgBadNbrQ, loop, step,
      NeighbourMethod.neighbour, withCtx])

/-- C8, counterexample: the claim asserts that the `Normal` neighbour
method fails for every non-positive standard deviation.  With the
finite, negative standard deviation `sd = -1` (and a sampler whose first
draw lands inside the bound interval), `neighbour` returns a point, not an
error: `rand_distr::Normal::new` only rejects a non-finite standard
deviation (see the doc comment of `Method::neighbour`, neighbour.rs). -/
theorem c8_counterexample :
    NeighbourMethod.neighbour (ρ := ℕ) (NeighbourMethod.Normal (-1 : ℚ))
      (fun _ _ n => (0, n + 1)) [0] [(-1, 1)] 0 1 =
      some (Except.ok ([0], 1)) := by
  norm_num [NeighbourMethod.neighbour, neighbourAux, normalNew, sampleIn,
    castF, rangeContains]

/-- C8, amended: the `Normal` neighbour method fails only when the
standard deviation is not finite; in the model field (which, like every
actual value of a floating-point variable that the distribution
constructor accepts, contains only finite values) distribution
construction never fails, so for every standard deviation — including
negative and zero — `neighbour` either diverges in the rejection loop
(`none`) or returns a point, never an error. -/
theorem c8_amended (sd : F) (normal : F → F → ρ → F × ρ) (p : List F)
    (bounds : List (F × F)) (rng : ρ) (nfuel : ℕ) :
    NeighbourMethod.neighbour (NeighbourMethod.Normal sd) normal p bounds
        rng nfuel = none ∨
      ∃ q rng2,
        NeighbourMethod.neighbour (NeighbourMethod.Normal sd) normal p
          bounds rng nfuel = some (Except.ok (q, rng2)) := by
  rcases neighbourAux_no_error normal sd nfuel (p.zip bounds) rng
    with h | ⟨q, rng2, h⟩
  · exact Or.inl (by rw [NeighbourMethod.neighbour, h])
  · exact Or.inr ⟨q, rng2, by rw [NeighbourMethod.neighbour, h]⟩

/-- C9: `findmin` is deterministic given its inputs.  Two configurations
that agree on every field — objective, initial point, temperatures,
bounds, strategies, generator seed state, samplers and fuel — produce
identical runs: the same recorded sequence of strategy invocations (hence
the same candidate points and acceptance decisions) and the same final
result.  The embedding makes this structural: the only stochastic input of
the source engine is the generator handle, which is part of the
configuration. -/
theorem c9_determinism [FloatOps F] (c1 c2 : Config F ρ) (fuel : ℕ)
    (h1 : c1.f = c2.f) (h2 : c1.p_0 = c2.p_0) (h3 : c1.t_0 = c2.t_0)
    (h4 : c1.t_min = c2.t_min) (h5 : c1.bounds = c2.bounds)
    (h6 : c1.apf = c2.apf) (h7 : c1.neighbour = c2.neighbour)
    (h8 : c1.schedule = c2.schedule) (h9 : c1.status = c2.status)
    (h10 : c1.rng = c2.rng) (h11 : c1.uni = c2.uni)
    (h12 : c1.normal = c2.normal) (h13 : c1.nfuel = c2.nfuel) :
    findminRun c1 fuel = findminRun c2 fuel := by
  obtain ⟨⟩ := c1
  obtain ⟨⟩ := c2
  dsimp only at h1 h2 h3 h4 h5 h6 h7 h8 h9 h10 h11 h12 h13
  subst h1 h2 h3 h4 h5 h6 h7 h8 h9 h10 h11 h12 h13
  rfl

theorem c9_witness : findminRun cfgOkQ 3 = findminRun cfgOkQ 3 :=
  c9_determinism cfgOkQ cfgOkQ 3 rfl rfl rfl rfl rfl rfl rfl rfl rfl rfl
    rfl rfl rfl

/-- C10: if the initial temperature does not exceed the minimum
temperature, `findmin` executes zero loop iterations: it evaluates the
objective once at the initial point and returns that value and point, with
an empty invocation trace — the neighbour method, the
acceptance-probability function, the schedule and the status sink are
never invoked, because the convergence test `t > t_min` guards the loop
before the first iteration. -/
theorem c10_zero_iterations [FloatOps F] (cfg : Config F ρ) (fuel : ℕ)
    (f0 : F) (h1 : cfg.t_0 ≤ cfg.t_min) (h2 : cfg.f cfg.p_0 = Except.ok f0) :
    findminRun cfg fuel = (some (Except.ok (f0, cfg.p_0)), []) := by
  simp only [findminRun, h2]
  cases fuel with
  | zero =>
    simp only [loop]
    rw [if_pos h1]
  | succ n =>
    simp only [loop]
    rw [if_pos h1]

theorem c10_witness :
    findminRun cfgConvQ 5 = (some (Except.ok (3, [3])), []) :=
  c10_zero_iterations cfgConvQ 5 3 (by norm_num [cfgConvQ])
    (by norm_num [cfgConvQ])

end SimAnn
